import Mathlib

/-
Verification of the core identity and simulation contract of a
battlesnake-style game library (`types.rs`): the `Move` vocabulary and its
geometry, the `SnakeId` assignment (`build_snake_id_map`), and the capability
contracts (`SimulableGame`, `VictorDeterminableGame`).
-/

set_option maxRecDepth 100000

namespace BattlesnakeTypes

/-! ## Data model: `Vector`, `Move`, `SnakeId` (from `types.rs`) -/

/-- A vector with which to do positional math (`struct Vector { x: i64, y: i64 }`).
The `i64` fields are modelled as `Int`; no arithmetic here comes near the
`i64` range. -/
structure Vector where
  x : Int
  y : Int
deriving DecidableEq

/-- Represents a move (`enum Move { Left, Down, Up, Right }`), in the source's
constructor order. -/
inductive Move where
  | Left
  | Down
  | Up
  | Right
deriving DecidableEq, Fintype

/-- convert this move to a vector (`Move::to_vector`). -/
def Move.to_vector : Move → Vector
  | Move.Left => { x := -1, y := 0 }
  | Move.Right => { x := 1, y := 0 }
  | Move.Up => { x := 0, y := 1 }
  | Move.Down => { x := 0, y := -1 }

/-- returns a vec of all possible moves (`Move::all`). -/
def Move.all : List Move :=
  [Move.Up, Move.Down, Move.Left, Move.Right]

/-- converts this move to a usize index, same order as `Move::all`
(`Move::as_index`); `usize` is modelled as `Nat`. -/
def Move.as_index : Move → Nat
  | Move.Up => 0
  | Move.Down => 1
  | Move.Left => 2
  | Move.Right => 3

/-- checks if a given move is not opposite this move (`Move::is_not_opposite`):
the negation of a match on the four opposite pairs. -/
def Move.is_not_opposite (self other : Move) : Bool :=
  !(match self, other with
    | Move.Up, Move.Down => true
    | Move.Down, Move.Up => true
    | Move.Left, Move.Right => true
    | Move.Right, Move.Left => true
    | _, _ => false)

/-- token to represent a snake id (`struct SnakeId(pub u8)`): the `u8` is
modelled as a `Nat` that the construction keeps below 256 by reducing the
counter `% 256` at each `u8` increment. -/
structure SnakeId where
  val : Nat
deriving DecidableEq

/-! ## The game snapshot shape used by `build_snake_id_map`

The wire `Game` type lives outside `types.rs`; `build_snake_id_map` reads only
`g.you.id` and the `id` of each entry of `g.board.snakes`, so the snapshot is
modelled with exactly those fields. -/

/-- A roster entry: only its `id` string is read by the code under study. -/
structure Battlesnake where
  id : String
deriving DecidableEq

/-- The board part of a snapshot: the roster of snakes in iteration order. -/
structure Board where
  snakes : List Battlesnake

/-- A game snapshot: the controlling snake `you` and the board. -/
structure Game where
  you : Battlesnake
  board : Board

/-! ## The `HashMap String SnakeId` model

`SnakeIDMap = HashMap<String, SnakeId>` is modelled as an association list
with unique keys; `insertA` overwrites any previous binding for the key, as
`HashMap::insert` does, and `lookupA` is `HashMap::get`. -/

/-- Association-list model of `SnakeIDMap`. -/
abbrev SnakeIDMap := List (String × SnakeId)

/-- `HashMap::insert`: any previous binding of `k` is replaced by `(k, v)`;
on the unique-keys association lists built here this overwrites in place, or
appends when `k` is absent. -/
def insertA : SnakeIDMap → String → SnakeId → SnakeIDMap
  | [], k, v => [(k, v)]
  | (k', v') :: rest, k, v =>
    if k' = k then (k, v) :: rest else (k', v') :: insertA rest k v

/-- `HashMap::get`: the value bound to `d`, if any. -/
def lookupA : SnakeIDMap → String → Option SnakeId
  | [], _ => none
  | (k, v) :: rest, d => if k = d then some v else lookupA rest d

/-! ## `build_snake_id_map` -/

/-- The `for snake in g.board.snakes.iter()` loop of `build_snake_id_map`:
skip entries whose id equals `you`'s id, insert the others with the current
counter value and increment the `u8` counter (increment taken `% 256`, the
`u8` wrap of `i += 1`). -/
def buildLoop (youId : String) : List Battlesnake → Nat → SnakeIDMap → SnakeIDMap
  | [], _, hm => hm
  | snake :: rest, i, hm =>
    if snake.id ≠ youId then
      buildLoop youId rest ((i + 1) % 256) (insertA hm snake.id ⟨i⟩)
    else
      buildLoop youId rest i hm

/-- builds a snake ID map for a given game (`build_snake_id_map` in
`types.rs`): insert `you.id ↦ SnakeId(0)`, then run the roster loop with the
counter starting at 1. -/
def build_snake_id_map (g : Game) : SnakeIDMap :=
  buildLoop g.you.id g.board.snakes 1 (insertA [] g.you.id ⟨0⟩)

/-! ## Derived descriptions of the roster used to state properties -/

/-- The non-controlling roster occurrences, in roster iteration order: the ids
of `g.board.snakes` with every occurrence of `g.you.id` removed. -/
def nonYouIds (g : Game) : List String :=
  (g.board.snakes.map Battlesnake.id).filter (fun d => d ≠ g.you.id)

/-- Index of the last occurrence of `d` in a list, if `d` occurs. -/
def lastIdx : List String → String → Option Nat
  | [], _ => none
  | e :: rest, d =>
    match lastIdx rest d with
    | some j => some (j + 1)
    | none => if e = d then some 0 else none

/-- Insert every id of the list in order, with the wrapping counter: the
roster loop after the `≠ you.id` filter has been carried out. -/
def insertAll : List String → Nat → SnakeIDMap → SnakeIDMap
  | [], _, hm => hm
  | d :: rest, i, hm => insertAll rest ((i + 1) % 256) (insertA hm d ⟨i⟩)

/-- The counter value at the last occurrence of `d` when the loop starts at
counter `i` (with the `u8` wrap), if `d` occurs in the list. -/
def lastVal : List String → Nat → String → Option Nat
  | [], _, _ => none
  | e :: rest, i, d =>
    match lastVal rest ((i + 1) % 256) d with
    | some v => some v
    | none => if e = d then some i else none

/-! ## The simulation contract (`SimulableGame`) -/

/-- `SimulableGame::simulate` — the default trait body from `types.rs`,
verbatim: pair every requested id with `Move::all()` and delegate to the
board's `simulate_with_moves`, which the trait leaves abstract and is here a
parameter. -/
def simulate {SID B Instr : Type}
    (simulate_with_moves : Instr → List (SID × List Move) → List (List (SID × Move) × B))
    (instruments : Instr) (snake_ids : List SID) : List (List (SID × Move) × B) :=
  let moves_to_simulate := Move.all
  let build := snake_ids.map (fun s => (s, moves_to_simulate))
  simulate_with_moves instruments build

/-- The spec's own wording of the default entry point — it "supplies the full
four-move vocabulary as the candidate set for every requested identity, then
delegates to the core enumeration" — stated independently so the source's
`simulate` can be compared against it. -/
def simulateSpec {SID B Instr : Type}
    (swm : Instr → List (SID × List Move) → List (List (SID × Move) × B))
    (instruments : Instr) (snake_ids : List SID) : List (List (SID × Move) × B) :=
  swm instruments (snake_ids.map (fun s => (s, Move.all)))

/-- All ways to choose one move per (identity, candidate-set) pair: the
Cartesian product of the per-identity candidate sets, each chosen move tagged
with its identity, in order. -/
def jointCombos {SID : Type} : List (SID × List Move) → List (List (SID × Move))
  | [] => [[]]
  | (s, ms) :: rest =>
    ms.flatMap (fun m => (jointCombos rest).map (fun tail => (s, m) :: tail))

/-- Modelled from the spec: `SimulableGame::simulate_with_moves` is a trait
method with no body in `types.rs` (each concrete board supplies one); per the
spec it must, "given a set of (identity, candidate move set) pairs, produce
every resulting successor state reachable by choosing one move per identity
from its candidate set, paired with the list of (identity, chosen move) that
produced it". The choices are the Cartesian product `jointCombos`; how one
joint choice resolves into a successor board is the board's business,
abstracted as `resolve`. -/
def simulate_with_moves {SID B Instr : Type}
    (resolve : List (SID × Move) → B) (_instruments : Instr)
    (snake_ids_and_moves : List (SID × List Move)) : List (List (SID × Move) × B) :=
  (jointCombos snake_ids_and_moves).map (fun c => (c, resolve c))

/-- `tags` is one joint choice for `pairs`: it pairs each identity of
`pairs`, in order, with one move drawn from that identity's candidate set. -/
def isJointChoice {SID : Type} (tags : List (SID × Move))
    (pairs : List (SID × List Move)) : Prop :=
  List.Forall₂ (fun t p => t.1 = p.1 ∧ t.2 ∈ p.2) tags pairs

/-! ## The victory-determination contract (`VictorDeterminableGame`) -/

/-- `VictorDeterminableGame` from `types.rs`: `is_over`, and `get_winner`
with its documented contract — it "will return None in the case of a draw,
or if the game is not over". -/
structure VictorDeterminableGame (B ι : Type) where
  is_over : B → Bool
  get_winner : B → Option ι
  winner_none_of_not_over : ∀ b, is_over b = false → get_winner b = none

/-- The three victory outcomes named by the spec. -/
inductive VictoryOutcome (ι : Type) where
  | Winner (id : ι)
  | Draw
  | NotOver
deriving DecidableEq

/-- How `is_over` and `get_winner` together encode the three outcomes: not
over is Not Over; over with a winner id is Winner of that id; over with no
winner is a Draw. -/
def victoryOutcome {B ι : Type} (V : VictorDeterminableGame B ι) (b : B) :
    VictoryOutcome ι :=
  if V.is_over b then
    match V.get_winner b with
    | some i => VictoryOutcome.Winner i
    | none => VictoryOutcome.Draw
  else VictoryOutcome.NotOver

/-! ## Concrete snapshots used as witnesses and counterexamples -/

/-- Snapshot with roster ids `["self", "a", "b"]` and controlling id `"self"`. -/
def gameSelfAB : Game :=
  { you := ⟨"self"⟩, board := { snakes := [⟨"self"⟩, ⟨"a"⟩, ⟨"b"⟩] } }

/-- Snapshot with roster ids `["self", "a", "a"]` (a duplicated
non-controlling id) and controlling id `"self"`. -/
def gameDupA : Game :=
  { you := ⟨"self"⟩, board := { snakes := [⟨"self"⟩, ⟨"a"⟩, ⟨"a"⟩] } }

/-- Snapshot whose roster is 256 occurrences of `"a"` with controlling id
`"you"`: one distinct non-controlling identifier but 256 occurrences, so the
`u8` counter wraps. -/
def gameWrap256 : Game :=
  { you := ⟨"you"⟩, board := { snakes := List.replicate 256 ⟨"a"⟩ } }

/-- Snapshot whose roster is 257 occurrences of `"a"` followed by `"b"`, with
controlling id `"you"`: the wrapped counter lands `"a"` on 1 and `"b"` on 2. -/
def gameWrap258 : Game :=
  { you := ⟨"you"⟩, board := { snakes := List.replicate 257 ⟨"a"⟩ ++ [⟨"b"⟩] } }

end BattlesnakeTypes

namespace BattlesnakeTypes

/-! ## Combinatorics of `jointCombos` -/

theorem sum_map_const_nat {α : Type} (l : List α) (c : Nat) :
    (l.map (fun _ => c)).sum = l.length * c := by
  induction l with
  | nil => simp
  | cons a l ih => simp [ih, Nat.succ_mul, Nat.add_comm]

theorem prod_map_const_nat {α : Type} (l : List α) (c : Nat) :
    (l.map (fun _ => c)).prod = c ^ l.length := by
  induction l with
  | nil => rfl
  | cons a l ih => simp [ih, pow_succ, Nat.mul_comm]

theorem jointCombos_length {SID : Type} (pairs : List (SID × List Move)) :
    (jointCombos pairs).length = (pairs.map (fun p => p.2.length)).prod := by
  induction pairs with
  | nil => rfl
  | cons p rest ih =>
    obtain ⟨s, ms⟩ := p
    simp only [jointCombos, List.length_flatMap, Function.comp_def,
      List.length_map, ih, List.map_cons, List.prod_cons]
    exact sum_map_const_nat ms _

theorem mem_jointCombos {SID : Type} (pairs : List (SID × List Move))
    (tags : List (SID × Move)) :
    tags ∈ jointCombos pairs ↔ isJointChoice tags pairs := by
  induction pairs generalizing tags with
  | nil =>
    simp only [jointCombos, List.mem_singleton, isJointChoice,
      List.forall₂_nil_right_iff]
  | cons p rest ih =>
    obtain ⟨s, ms⟩ := p
    simp only [jointCombos, List.mem_flatMap, List.mem_map, isJointChoice]
    constructor
    · rintro ⟨m, hm, tail, htail, rfl⟩
      exact List.Forall₂.cons ⟨rfl, hm⟩ ((ih tail).1 htail)
    · intro h
      match tags, h with
      | (t1, t2) :: tail, List.Forall₂.cons ⟨h1, h2⟩ htail =>
        refine ⟨t2, h2, tail, (ih tail).2 htail, ?_⟩
        simp only at h1
        rw [h1]

theorem jointCombos_nodup {SID : Type} (pairs : List (SID × List Move))
    (h : ∀ p ∈ pairs, p.2.Nodup) : (jointCombos pairs).Nodup := by
  induction pairs with
  | nil => simp [jointCombos]
  | cons p rest ih =>
    obtain ⟨s, ms⟩ := p
    have hms : ms.Nodup := h (s, ms) (List.mem_cons_self _ _)
    have hrest : (jointCombos rest).Nodup :=
      ih (fun q hq => h q (List.mem_cons_of_mem _ hq))
    rw [jointCombos, List.nodup_flatMap]
    constructor
    · intro m _
      refine hrest.map ?_
      intro a b e
      injection e
    · refine hms.imp ?_
      intro m₁ m₂ hne x hx₁ hx₂
      obtain ⟨t₁, _, rfl⟩ := List.mem_map.1 hx₁
      obtain ⟨t₂, _, he⟩ := List.mem_map.1 hx₂
      apply hne
      injection he with hhead _
      injection hhead with _ hmv
      exact hmv.symm

/-! ## The identity map, step by step

`build_snake_id_map` is related to the roster description `nonYouIds`:
the loop equals `insertAll` on the filtered id list, a lookup in `insertAll`
is governed by `lastVal`, and below the `u8` wrap (at most 255 non-controlling
occurrences) `lastVal` is `1 + ` the last-occurrence index `lastIdx`. -/

theorem lookupA_insertA (m : SnakeIDMap) (k : String) (v : SnakeId) (d : String) :
    lookupA (insertA m k v) d = if k = d then some v else lookupA m d := by
  induction m with
  | nil => simp [insertA, lookupA]
  | cons p m ih =>
    obtain ⟨k', v'⟩ := p
    by_cases hk : k' = k
    · subst hk
      by_cases hd : k' = d <;> simp [insertA, lookupA, hd]
    · by_cases hd : k' = d
      · have hkd : k ≠ d := fun e => hk (hd.trans e.symm)
        have hdk : d ≠ k := Ne.symm hkd
        simp [insertA, lookupA, hk, hd, hkd, hdk]
      · simp [insertA, lookupA, hk, hd, ih]

theorem buildLoop_eq_insertAll (youId : String) (l : List Battlesnake)
    (i : Nat) (hm : SnakeIDMap) :
    buildLoop youId l i hm =
      insertAll ((l.map Battlesnake.id).filter (fun d => d ≠ youId)) i hm := by
  induction l generalizing i hm with
  | nil => rfl
  | cons s l ih =>
    by_cases h : s.id = youId
    · simp [buildLoop, h, List.filter_cons, ih]
    · simp [buildLoop, h, List.filter_cons, ih, insertAll]

theorem build_snake_id_map_eq_insertAll (g : Game) :
    build_snake_id_map g = insertAll (nonYouIds g) 1 [(g.you.id, ⟨0⟩)] := by
  rw [build_snake_id_map, buildLoop_eq_insertAll]
  rfl

theorem lookupA_insertAll (r : List String) (i : Nat) (hm : SnakeIDMap)
    (d : String) :
    lookupA (insertAll r i hm) d =
      match lastVal r i d with
      | some v => some ⟨v⟩
      | none => lookupA hm d := by
  induction r generalizing i hm with
  | nil => rfl
  | cons e rest ih =>
    rw [insertAll, ih, lastVal]
    cases hrec : lastVal rest ((i + 1) % 256) d with
    | some v => rfl
    | none =>
      rw [lookupA_insertA]
      by_cases he : e = d <;> simp [he]

theorem lastIdx_eq_none (r : List String) (d : String) :
    lastIdx r d = none ↔ d ∉ r := by
  induction r with
  | nil => simp [lastIdx]
  | cons e rest ih =>
    rw [lastIdx]
    cases hrec : lastIdx rest d with
    | some j =>
      have hd : d ∈ rest := by
        by_contra hn
        rw [ih.2 hn] at hrec
        exact Option.noConfusion hrec
      simp [List.mem_cons, hd]
    | none =>
      have hd : d ∉ rest := ih.1 hrec
      by_cases he : e = d
      · simp [he]
      · simp [he, List.mem_cons, hd, Ne.symm he]

theorem lastIdx_get (r : List String) (d : String) (j : Nat)
    (h : lastIdx r d = some j) : ∃ hj : j < r.length, r.get ⟨j, hj⟩ = d := by
  induction r generalizing j with
  | nil => simp [lastIdx] at h
  | cons e rest ih =>
    rw [lastIdx] at h
    cases hrec : lastIdx rest d with
    | some j' =>
      rw [hrec] at h
      cases h
      obtain ⟨hj', hget⟩ := ih j' hrec
      exact ⟨Nat.succ_lt_succ hj', hget⟩
    | none =>
      rw [hrec] at h
      by_cases he : e = d
      · simp [he] at h
        subst h
        exact ⟨Nat.succ_pos _, he⟩
      · simp [he] at h

theorem le_lastIdx_of_get (r : List String) (d : String) (j : Nat)
    (hj : j < r.length) (h : r.get ⟨j, hj⟩ = d) :
    ∃ j', lastIdx r d = some j' ∧ j ≤ j' := by
  induction r generalizing j with
  | nil => simp at hj
  | cons e rest ih =>
    cases j with
    | zero =>
      simp only [List.get] at h
      rw [lastIdx]
      cases hrec : lastIdx rest d with
      | some j' => exact ⟨j' + 1, rfl, Nat.zero_le _⟩
      | none => exact ⟨0, by simp [h], Nat.le_refl 0⟩
    | succ j =>
      obtain ⟨j', hrec, hle⟩ := ih j (Nat.lt_of_succ_lt_succ hj) h
      rw [lastIdx, hrec]
      exact ⟨j' + 1, rfl, Nat.succ_le_succ hle⟩

theorem lastVal_no_wrap (r : List String) (d : String) :
    ∀ i : Nat, i + r.length ≤ 256 →
      lastVal r i d = (lastIdx r d).map (fun j => i + j) := by
  induction r with
  | nil => intro i _; rfl
  | cons e rest ih =>
    intro i hle
    by_cases hrest : rest = []
    · subst hrest
      rw [lastVal, lastIdx]
      by_cases he : e = d <;> simp [lastVal, lastIdx, he]
    · have hpos : 0 < rest.length := List.length_pos.2 hrest
      have hlen : i + 1 + rest.length ≤ 256 := by
        simp only [List.length_cons] at hle
        omega
      have hlt : i + 1 < 256 := by omega
      rw [lastVal, lastIdx, Nat.mod_eq_of_lt hlt, ih (i + 1) hlen]
      cases hL : lastIdx rest d with
      | some j =>
        simp only [Option.map_some', Option.some.injEq]
        omega
      | none =>
        by_cases he : e = d <;> simp [he]

/-- Full description of a lookup in the built map, below the `u8` wrap:
`you.id` maps to 0, a non-controlling id maps to one plus its last-occurrence
index in the filtered roster, and any other string is unmapped. -/
theorem lookup_build (g : Game) (h255 : (nonYouIds g).length ≤ 255) :
    lookupA (build_snake_id_map g) g.you.id = some ⟨0⟩ ∧
    (∀ d, d ∈ nonYouIds g →
      lookupA (build_snake_id_map g) d =
        (lastIdx (nonYouIds g) d).map (fun j => ⟨1 + j⟩)) ∧
    (∀ d, d ≠ g.you.id → d ∉ nonYouIds g →
      lookupA (build_snake_id_map g) d = none) := by
  have hwrap : 1 + (nonYouIds g).length ≤ 256 := by omega
  have hbase : ∀ d, lookupA (build_snake_id_map g) d =
      match (lastIdx (nonYouIds g) d).map (fun j => 1 + j) with
      | some v => some ⟨v⟩
      | none => lookupA [(g.you.id, ⟨0⟩)] d := by
    intro d
    rw [build_snake_id_map_eq_insertAll, lookupA_insertAll,
      lastVal_no_wrap _ _ 1 hwrap]
  refine ⟨?_, ?_, ?_⟩
  · have hnm : g.you.id ∉ nonYouIds g := by
      intro hmem
      have := (List.mem_filter.1 hmem).2
      simp at this
    rw [hbase, (lastIdx_eq_none _ _).2 hnm]
    simp [lookupA]
  · intro d hd
    rw [hbase]
    cases hL : lastIdx (nonYouIds g) d with
    | some j => rfl
    | none => exact absurd ((lastIdx_eq_none _ _).1 hL) (by simp [hd])
  · intro d hne hnm
    rw [hbase, (lastIdx_eq_none _ _).2 hnm]
    simp [lookupA, Ne.symm hne]

/-- Inverse description: anything a lookup in the built map returns is either
`you.id ↦ 0` or a non-controlling id at one plus its last-occurrence index. -/
theorem lookup_build_inv (g : Game) (h255 : (nonYouIds g).length ≤ 255)
    (d : String) (s : SnakeId)
    (h : lookupA (build_snake_id_map g) d = some s) :
    (d = g.you.id ∧ s = ⟨0⟩) ∨
    (d ∈ nonYouIds g ∧
      ∃ j, lastIdx (nonYouIds g) d = some j ∧ s = ⟨1 + j⟩) := by
  obtain ⟨hyou, hmem, hnone⟩ := lookup_build g h255
  by_cases hdy : d = g.you.id
  · subst hdy
    rw [hyou] at h
    refine Or.inl ⟨rfl, ?_⟩
    injection h with h2
    exact h2.symm
  · by_cases hdm : d ∈ nonYouIds g
    · rw [hmem d hdm] at h
      cases hL : lastIdx (nonYouIds g) d with
      | some j =>
        rw [hL] at h
        simp only [Option.map_some', Option.some.injEq] at h
        exact Or.inr ⟨hdm, j, rfl, h.symm⟩
      | none => rw [hL] at h; simp at h
    · rw [hnone d hdy hdm] at h
      simp at h

/-! ## Theorems on identity assignment (C1, C9, C10) -/

/-- C1 (amended): provided the non-controlling roster identifiers are
pairwise distinct and number at most 255, `build_snake_id_map` maps the
controlling participant's identifier `you.id` to identity 0, and maps the
j-th identifier of the roster taken in iteration order with entries equal to
`you.id` skipped (0-indexed) to the identity j + 1 — so the other identifiers
receive the distinct positive identities 1, 2, 3, … in roster order. -/
theorem C1_snake_id_map_assignment (g : Game)
    (hnd : (nonYouIds g).Nodup) (h255 : (nonYouIds g).length ≤ 255) :
    lookupA (build_snake_id_map g) g.you.id = some ⟨0⟩ ∧
    ∀ j (hj : j < (nonYouIds g).length),
      lookupA (build_snake_id_map g) ((nonYouIds g).get ⟨j, hj⟩) =
        some ⟨j + 1⟩ := by
  obtain ⟨hyou, hmem, _⟩ := lookup_build g h255
  refine ⟨hyou, ?_⟩
  intro j hj
  have hdmem : (nonYouIds g).get ⟨j, hj⟩ ∈ nonYouIds g := List.get_mem _ j hj
  obtain ⟨j', hL, hle⟩ :=
    le_lastIdx_of_get (nonYouIds g) ((nonYouIds g).get ⟨j, hj⟩) j hj rfl
  have hj'j : j' = j := by
    obtain ⟨hj', hget⟩ := lastIdx_get (nonYouIds g) _ j' hL
    exact Fin.mk_eq_mk.1 (hnd.get_inj_iff.1 hget)
  subst hj'j
  rw [hmem _ hdmem, hL]
  simp [Nat.add_comm]

/-- C1 witness: at the spec's example — roster ids ["self", "a", "b"],
controlling id "self" — the amended claim's hypotheses hold and the map is
self ↦ 0, a ↦ 1, b ↦ 2. -/
theorem C1_snake_id_map_assignment_witness :
    lookupA (build_snake_id_map gameSelfAB) "self" = some ⟨0⟩ ∧
    lookupA (build_snake_id_map gameSelfAB) "a" = some ⟨1⟩ ∧
    lookupA (build_snake_id_map gameSelfAB) "b" = some ⟨2⟩ :=
  ⟨(C1_snake_id_map_assignment gameSelfAB (by decide) (by decide)).1,
   (C1_snake_id_map_assignment gameSelfAB (by decide) (by decide)).2 0 (by decide),
   (C1_snake_id_map_assignment gameSelfAB (by decide) (by decide)).2 1 (by decide)⟩

/-- C1 counterexample: at roster ids ["self", "a", "a"] with controlling id
"self", the first (and only) non-controlling identifier in roster iteration
order, "a", is mapped to identity 2 — not to identity 1 as the claimed
assignment "1, 2, 3, … in roster iteration order" requires — because its
second occurrence overwrites the first. -/
theorem C1_snake_id_map_assignment_counterexample :
    (nonYouIds gameDupA).get ⟨0, by decide⟩ = "a" ∧
    lookupA (build_snake_id_map gameDupA) "a" = some ⟨2⟩ ∧
    lookupA (build_snake_id_map gameDupA) "a" ≠ some ⟨0 + 1⟩ :=
  ⟨by decide, by decide, by decide⟩

/-- C9 (amended): provided there are at most 255 non-controlling roster
occurrences, whenever some non-controlling identifier occurs more than once
(the filtered roster is not duplicate-free): every non-controlling identifier
maps to one plus the index of its last occurrence, the last occurrence maps
to the largest assigned identity — the number N of non-controlling
occurrences — no assigned identity exceeds N, and some value strictly
between 0 and N is mapped to by no identifier, so the identities in the map
are not contiguous. -/
theorem C9_duplicate_overwrite_leaves_gap (g : Game)
    (hdup : ¬ (nonYouIds g).Nodup) (h255 : (nonYouIds g).length ≤ 255) :
    (∀ d, d ∈ nonYouIds g →
      lookupA (build_snake_id_map g) d =
        (lastIdx (nonYouIds g) d).map (fun j => ⟨1 + j⟩)) ∧
    (∃ hne : nonYouIds g ≠ [],
      lookupA (build_snake_id_map g) ((nonYouIds g).getLast hne) =
        some ⟨(nonYouIds g).length⟩) ∧
    (∀ d s, lookupA (build_snake_id_map g) d = some s →
      s.val ≤ (nonYouIds g).length) ∧
    (∃ v, 0 < v ∧ v < (nonYouIds g).length ∧
      ∀ d, lookupA (build_snake_id_map g) d ≠ some ⟨v⟩) := by
  obtain ⟨hyou, hmem, hnone⟩ := lookup_build g h255
  have hne : nonYouIds g ≠ [] := by
    intro h
    exact hdup (h ▸ List.nodup_nil)
  have hpos : 0 < (nonYouIds g).length := List.length_pos.2 hne
  have hlastget : (nonYouIds g).get ⟨(nonYouIds g).length - 1, by omega⟩ =
      (nonYouIds g).getLast hne := (List.getLast_eq_get _ hne).symm
  obtain ⟨j', hL, hle⟩ := le_lastIdx_of_get (nonYouIds g)
    ((nonYouIds g).getLast hne) ((nonYouIds g).length - 1) (by omega) hlastget
  obtain ⟨hj'lt, _⟩ := lastIdx_get (nonYouIds g) _ j' hL
  have hj'eq : j' = (nonYouIds g).length - 1 := by omega
  subst hj'eq
  have hlast : lookupA (build_snake_id_map g) ((nonYouIds g).getLast hne) =
      some ⟨(nonYouIds g).length⟩ := by
    rw [hmem _ (List.getLast_mem hne), hL]
    simp only [Option.map_some', Option.some.injEq, SnakeId.mk.injEq]
    omega
  have hub : ∀ d s, lookupA (build_snake_id_map g) d = some s →
      s.val ≤ (nonYouIds g).length := by
    intro d s h
    rcases lookup_build_inv g h255 d s h with ⟨_, rfl⟩ | ⟨_, j, hLj, rfl⟩
    · exact Nat.zero_le _
    · obtain ⟨hjlt, _⟩ := lastIdx_get (nonYouIds g) _ j hLj
      exact (by omega : 1 + j ≤ (nonYouIds g).length)
  have hk : (nonYouIds g).dedup.length < (nonYouIds g).length := by
    have hsub := List.dedup_sublist (nonYouIds g)
    rcases Nat.lt_or_ge (nonYouIds g).dedup.length (nonYouIds g).length with h | h
    · exact h
    · exact absurd
        ((hsub.eq_of_length (Nat.le_antisymm hsub.length_le h)) ▸
          List.nodup_dedup (nonYouIds g)) hdup
  refine ⟨hmem, ⟨hne, hlast⟩, hub, ?_⟩
  by_contra hng
  push_neg at hng
  have hsubF : Finset.Icc 1 (nonYouIds g).length ⊆
      ((nonYouIds g).dedup.map
        (fun d => 1 + (lastIdx (nonYouIds g) d).getD 0)).toFinset := by
    intro v hv
    rw [Finset.mem_Icc] at hv
    rw [List.mem_toFinset, List.mem_map]
    rcases Nat.lt_or_ge v (nonYouIds g).length with hvlt | hvge
    · obtain ⟨d, hd⟩ := hng v (by omega) hvlt
      rcases lookup_build_inv g h255 d _ hd with ⟨_, he⟩ | ⟨hdm, j, hLj, he⟩
      · have : v = 0 := congrArg SnakeId.val he
        omega
      · refine ⟨d, List.mem_dedup.2 hdm, ?_⟩
        have hvj : v = 1 + j := congrArg SnakeId.val he
        rw [hLj]
        simp only [Option.getD_some]
        omega
    · have hveq : v = (nonYouIds g).length := by omega
      refine ⟨(nonYouIds g).getLast hne,
        List.mem_dedup.2 (List.getLast_mem hne), ?_⟩
      rw [hL]
      simp only [Option.getD_some]
      omega
  have hcard := Finset.card_le_card hsubF
  rw [Nat.card_Icc] at hcard
  have hlen := List.toFinset_card_le
    ((nonYouIds g).dedup.map (fun d => 1 + (lastIdx (nonYouIds g) d).getD 0))
  rw [List.length_map] at hlen
  omega

/-- C9 witness: at roster ids ["self", "a", "a"] with controlling id "self"
(a duplicated non-controlling identifier, 2 occurrences), the amended claim
applies: "a" maps to its last-occurrence identity 2, the largest assigned
identity is 2, and some value strictly between 0 and 2 is unassigned. -/
theorem C9_duplicate_overwrite_leaves_gap_witness :
    (∀ d, d ∈ nonYouIds gameDupA →
      lookupA (build_snake_id_map gameDupA) d =
        (lastIdx (nonYouIds gameDupA) d).map (fun j => ⟨1 + j⟩)) ∧
    (∃ hne : nonYouIds gameDupA ≠ [],
      lookupA (build_snake_id_map gameDupA) ((nonYouIds gameDupA).getLast hne) =
        some ⟨(nonYouIds gameDupA).length⟩) ∧
    (∀ d s, lookupA (build_snake_id_map gameDupA) d = some s →
      s.val ≤ (nonYouIds gameDupA).length) ∧
    (∃ v, 0 < v ∧ v < (nonYouIds gameDupA).length ∧
      ∀ d, lookupA (build_snake_id_map gameDupA) d ≠ some ⟨v⟩) :=
  C9_duplicate_overwrite_leaves_gap gameDupA (by decide) (by decide)

/-- C9 counterexample: the non-contiguity part of the claim fails without a
bound on occurrences. The roster of `gameWrap258` — 257 occurrences of "a"
then "b", controlling id "you" — has a duplicated non-controlling identifier,
yet the wrapped `u8` counter makes the built map exactly
you ↦ 0, a ↦ 1, b ↦ 2: every value up to the largest assigned identity 2 is
assigned, so the identity set is contiguous. -/
theorem C9_duplicate_overwrite_leaves_gap_counterexample :
    ¬ (nonYouIds gameWrap258).Nodup ∧
    (build_snake_id_map gameWrap258).map (fun p => (p.1, p.2.val)) =
      [("you", 0), ("a", 1), ("b", 2)] ∧
    (∀ v : Nat, v ≤ 2 → ∃ d, lookupA (build_snake_id_map gameWrap258) d = some ⟨v⟩) ∧
    (∀ d s, lookupA (build_snake_id_map gameWrap258) d = some s → s.val ≤ 2) := by
  have hmap : build_snake_id_map gameWrap258 =
      [("you", ⟨0⟩), ("a", ⟨1⟩), ("b", ⟨2⟩)] := by decide
  refine ⟨by decide, by rw [hmap]; decide, ?_, ?_⟩
  · intro v hv
    match v, hv with
    | 0, _ => exact ⟨"you", by rw [hmap]; decide⟩
    | 1, _ => exact ⟨"a", by rw [hmap]; decide⟩
    | 2, _ => exact ⟨"b", by rw [hmap]; decide⟩
  · intro d s h
    rw [hmap] at h
    simp only [lookupA] at h
    split_ifs at h
    · injection h with h2; subst h2; decide
    · injection h with h2; subst h2; decide
    · injection h with h2; subst h2; decide

/-- C10 (amended): the counter is an 8-bit value, but it advances at every
non-controlling roster occurrence, not once per distinct identifier: for
every snapshot with at most 255 non-controlling roster occurrences the
assigned identities are pairwise distinct across distinct identifiers, and
with more occurrences the counter wraps modulo 256 so the guarantee is lost
(even with few distinct identifiers). -/
theorem C10_distinct_identities_below_wrap (g : Game)
    (h255 : (nonYouIds g).length ≤ 255) :
    ∀ d d' s s', d ≠ d' →
      lookupA (build_snake_id_map g) d = some s →
      lookupA (build_snake_id_map g) d' = some s' →
      s ≠ s' := by
  intro d d' s s' hne h h'
  rcases lookup_build_inv g h255 d s h with ⟨hdy, rfl⟩ | ⟨hdm, j, hLj, rfl⟩
  · rcases lookup_build_inv g h255 d' s' h' with ⟨hdy', rfl⟩ | ⟨_, j', hLj', rfl⟩
    · exact absurd (hdy.trans hdy'.symm) hne
    · intro he
      have : (0 : Nat) = 1 + j' := congrArg SnakeId.val he
      omega
  · rcases lookup_build_inv g h255 d' s' h' with ⟨hdy', rfl⟩ | ⟨_, j', hLj', rfl⟩
    · intro he
      have : 1 + j = 0 := congrArg SnakeId.val he
      omega
    · intro he
      have hjj : j = j' := by
        have : 1 + j = 1 + j' := congrArg SnakeId.val he
        omega
      subst hjj
      obtain ⟨hj1, hg1⟩ := lastIdx_get (nonYouIds g) _ j hLj
      obtain ⟨hj2, hg2⟩ := lastIdx_get (nonYouIds g) _ j hLj'
      exact hne (hg1.symm.trans hg2)

/-- C10 witness: at roster ids ["self", "a", "b"] (2 non-controlling
occurrences, below the bound) the identities of the distinct identifiers "a"
and "b" are distinct. -/
theorem C10_distinct_identities_below_wrap_witness :
    lookupA (build_snake_id_map gameSelfAB) "a" = some ⟨1⟩ ∧
    lookupA (build_snake_id_map gameSelfAB) "b" = some ⟨2⟩ ∧
    (⟨1⟩ : SnakeId) ≠ ⟨2⟩ :=
  ⟨by decide, by decide,
   C10_distinct_identities_below_wrap gameSelfAB (by decide) "a" "b" ⟨1⟩ ⟨2⟩
     (by decide) (by decide) (by decide)⟩

/-- C10 counterexample: the claimed bound — "at most 255 *distinct*
non-controlling identifiers" — does not guarantee distinct identities. The
roster of `gameWrap256` is 256 occurrences of the single identifier "a"
(one distinct non-controlling identifier, `dedup = ["a"]`), yet the 256th
occurrence wraps the `u8` counter to 0, so the distinct identifiers "a" and
"you" are both assigned identity 0. -/
theorem C10_distinct_identities_below_wrap_counterexample :
    (nonYouIds gameWrap256).dedup = ["a"] ∧
    "a" ≠ "you" ∧
    lookupA (build_snake_id_map gameWrap256) "a" = some ⟨0⟩ ∧
    lookupA (build_snake_id_map gameWrap256) "you" = some ⟨0⟩ :=
  ⟨by decide, by decide, by decide, by decide⟩

/-! ## Theorems on the move vocabulary -/

/-- C4: `is_not_opposite` is symmetric and is `false` exactly for the four
ordered pairs (Up,Down), (Down,Up), (Left,Right), (Right,Left); it is `true`
for every other pair, in particular for every pair of equal moves. -/
theorem C4_is_not_opposite_symmetric_and_exact :
    ∀ a b : Move,
      Move.is_not_opposite a b = Move.is_not_opposite b a ∧
      (Move.is_not_opposite a b = false ↔
        (a, b) ∈ [(Move.Up, Move.Down), (Move.Down, Move.Up),
                  (Move.Left, Move.Right), (Move.Right, Move.Left)]) ∧
      Move.is_not_opposite a a = true := by
  decide

/-- C5: `as_index` is a bijection from the four moves onto `{0, 1, 2, 3}`
with the canonical values Up=0, Down=1, Left=2, Right=3, and for every move
`m`, `as_index m` is the position of `m` in `Move.all`. -/
theorem C5_as_index_bijection_canonical :
    Move.as_index Move.Up = 0 ∧
    Move.as_index Move.Down = 1 ∧
    Move.as_index Move.Left = 2 ∧
    Move.as_index Move.Right = 3 ∧
    Function.Injective Move.as_index ∧
    (∀ m : Move, Move.as_index m < 4) ∧
    (∀ n : Nat, n < 4 → ∃ m : Move, Move.as_index m = n) ∧
    (∀ m : Move, Move.all.indexOf m = Move.as_index m) := by
  refine ⟨rfl, rfl, rfl, rfl, by decide, by decide, ?_, by decide⟩
  decide

/-- C6: `Move.all` is the constant list `[Up, Down, Left, Right]`: exactly
the four moves, each once, in that fixed order. -/
theorem C6_all_moves_fixed_order :
    Move.all = [Move.Up, Move.Down, Move.Left, Move.Right] ∧
    Move.all.length = 4 ∧
    Move.all.Nodup ∧
    ∀ m : Move, m ∈ Move.all := by
  refine ⟨rfl, rfl, by decide, by decide⟩

/-- C7: `to_vector` is total with Up = (0,1), Down = (0,-1), Left = (-1,0),
Right = (1,0), and the vectors of Up and Down sum to (0,0) componentwise, as
do the vectors of Left and Right. -/
theorem C7_to_vector_values_and_sums :
    Move.to_vector Move.Up = { x := 0, y := 1 } ∧
    Move.to_vector Move.Down = { x := 0, y := -1 } ∧
    Move.to_vector Move.Left = { x := -1, y := 0 } ∧
    Move.to_vector Move.Right = { x := 1, y := 0 } ∧
    (Move.to_vector Move.Up).x + (Move.to_vector Move.Down).x = 0 ∧
    (Move.to_vector Move.Up).y + (Move.to_vector Move.Down).y = 0 ∧
    (Move.to_vector Move.Left).x + (Move.to_vector Move.Right).x = 0 ∧
    (Move.to_vector Move.Left).y + (Move.to_vector Move.Right).y = 0 := by
  refine ⟨rfl, rfl, rfl, rfl, by decide, by decide, by decide, by decide⟩

/-! ## Theorems on the simulation contract -/

/-- C3: the default `simulate` equals `simulate_with_moves` applied to the
same identities in the same order, each paired with the full four-move
vocabulary `Move.all` — for every `simulate_with_moves` a concrete board
could supply; equivalently, the source's `simulate` coincides with the
spec-worded derived operation `simulateSpec`, so it has no logic of its
own. -/
theorem C3_simulate_is_derived_from_simulate_with_moves
    {SID B Instr : Type}
    (swm : Instr → List (SID × List Move) → List (List (SID × Move) × B))
    (instruments : Instr) (snake_ids : List SID) :
    simulate swm instruments snake_ids =
      swm instruments (snake_ids.map (fun s => (s, Move.all))) ∧
    simulate swm instruments snake_ids = simulateSpec swm instruments snake_ids :=
  ⟨rfl, rfl⟩

/-- C2: the (spec-modelled) `simulate_with_moves` produces one successor entry
per element of the Cartesian product of the per-identity candidate sets: its
tag lists are exactly `jointCombos pairs`, its length is the product of the
candidate-set sizes, membership of a tag list is exactly being a joint choice,
the tag lists are pairwise distinct whenever each candidate set is
duplicate-free (full coverage exactly once, no pruning, deduplication or
filtering), and with the full four-move set for each of `k` identities it has
exactly `4 ^ k` entries. -/
theorem C2_simulate_with_moves_cartesian_product
    {SID B Instr : Type}
    (resolve : List (SID × Move) → B) (instruments : Instr)
    (pairs : List (SID × List Move)) :
    ((simulate_with_moves resolve instruments pairs).map Prod.fst = jointCombos pairs) ∧
    ((simulate_with_moves resolve instruments pairs).length =
      (pairs.map (fun p => p.2.length)).prod) ∧
    (∀ tags, tags ∈ (simulate_with_moves resolve instruments pairs).map Prod.fst ↔
      isJointChoice tags pairs) ∧
    ((∀ p ∈ pairs, p.2.Nodup) →
      ((simulate_with_moves resolve instruments pairs).map Prod.fst).Nodup) ∧
    (∀ snake_ids : List SID,
      (simulate_with_moves resolve instruments
        (snake_ids.map (fun s => (s, Move.all)))).length = 4 ^ snake_ids.length) := by
  have hfst : (simulate_with_moves resolve instruments pairs).map Prod.fst =
      jointCombos pairs := by
    simp [simulate_with_moves, List.map_map, Function.comp_def]
  refine ⟨hfst, ?_, ?_, ?_, ?_⟩
  · simp [simulate_with_moves, jointCombos_length]
  · intro tags
    rw [hfst]
    exact mem_jointCombos pairs tags
  · intro h
    rw [hfst]
    exact jointCombos_nodup pairs h
  · intro snake_ids
    simp only [simulate_with_moves, List.length_map, jointCombos_length,
      List.map_map, Function.comp_def]
    rw [prod_map_const_nat]
    rfl

/-- C2 witness: for the spec's own example — identities `[0, 1]` each given
the candidate set `[Up, Down]` — the model produces exactly the four tagged
successor entries of the Cartesian product, and the Nodup hypothesis of the
claim theorem holds and yields duplicate-free tag lists there. -/
theorem C2_simulate_with_moves_cartesian_product_witness :
    (∀ p ∈ [((0 : Nat), [Move.Up, Move.Down]), (1, [Move.Up, Move.Down])],
      p.2.Nodup) ∧
    ((simulate_with_moves (fun _ => ()) ()
        [((0 : Nat), [Move.Up, Move.Down]), (1, [Move.Up, Move.Down])]).map
        Prod.fst).Nodup ∧
    (simulate_with_moves (fun _ => ()) ()
        [((0 : Nat), [Move.Up, Move.Down]), (1, [Move.Up, Move.Down])]).length =
      ([((0 : Nat), [Move.Up, Move.Down]), (1, [Move.Up, Move.Down])].map
        (fun p => p.2.length)).prod :=
  ⟨by decide,
   (C2_simulate_with_moves_cartesian_product (fun _ => ()) ()
      [((0 : Nat), [Move.Up, Move.Down]), (1, [Move.Up, Move.Down])]).2.2.2.1
     (by decide),
   (C2_simulate_with_moves_cartesian_product (fun _ => ()) ()
      [((0 : Nat), [Move.Up, Move.Down]), (1, [Move.Up, Move.Down])]).2.1⟩

/-! ## Theorems on victory determination -/

/-- C8: victory determination yields exactly one of Winner(identity), Draw,
Not Over: `is_over` together with `get_winner` distinguishes the three cases
— the outcome is Not Over exactly when `is_over` is false, Winner `i` exactly
when the game is over and `get_winner` yields `i`, Draw exactly when the game
is over and `get_winner` yields no identity; and `get_winner` yields no
identity exactly in the Draw and Not Over cases. -/
theorem C8_victory_three_outcomes {B ι : Type}
    (V : VictorDeterminableGame B ι) (b : B) :
    (victoryOutcome V b = VictoryOutcome.NotOver ↔ V.is_over b = false) ∧
    (∀ i : ι, victoryOutcome V b = VictoryOutcome.Winner i ↔
      (V.is_over b = true ∧ V.get_winner b = some i)) ∧
    (victoryOutcome V b = VictoryOutcome.Draw ↔
      (V.is_over b = true ∧ V.get_winner b = none)) ∧
    (V.get_winner b = none ↔
      (victoryOutcome V b = VictoryOutcome.Draw ∨
       victoryOutcome V b = VictoryOutcome.NotOver)) := by
  have hcontract := V.winner_none_of_not_over b
  unfold victoryOutcome
  cases hov : V.is_over b with
  | false => simp [hcontract hov]
  | true =>
    cases hw : V.get_winner b with
    | none => simp
    | some i => simp

end BattlesnakeTypes
